import Mathlib

/-!
Shallow embedding of the grasp-fusion / trajectory-synthesis pipeline implemented in
`src/scripts/gen_grasp_refactor_record.py`.

The script's numeric arrays (numpy float arrays) are modelled as `List ℚ`.  Geometry
delivered by external collaborators (open3d oriented-bounding-box point queries, the
GraspNet detector, the UR5 motion planner) is modelled by parameters: a membership
predicate `GraspC → ℕ → Bool` stands for `box.get_point_indices_within_bounding_box`,
and planner outcomes are explicit fields of a `Trial`.  Where the script's numpy code
can produce a non-finite float (division by zero producing `inf`/`nan`), the embedded
function returns `Option` with `none` standing for the non-finite outcome.
-/

namespace GenGrasp

/-! ### numpy-style list helpers -/

/-- Ascending sort, modelling `np.sort` (used inside `np.quantile` / `np.median`). -/
def npSort (xs : List ℚ) : List ℚ := List.insertionSort (fun a b => a ≤ b) xs

/-- Minimum of a numpy array (`arr.min()`); numpy raises on an empty array, here 0. -/
def npMin : List ℚ → ℚ
  | [] => 0
  | x :: xs => xs.foldl min x

/-- Maximum of a numpy array (`arr.max()`); numpy raises on an empty array, here 0. -/
def npMax : List ℚ → ℚ
  | [] => 0
  | x :: xs => xs.foldl max x

/-- `np.median`: middle element of the sorted array for odd length, average of the two
middle elements for even length.  The script only calls it on non-empty arrays
(`if len(pts) == 0` is checked first). -/
def npMedian (xs : List ℚ) : ℚ :=
  if (npSort xs).length % 2 = 1 then (npSort xs).getD ((npSort xs).length / 2) 0
  else
    ((npSort xs).getD ((npSort xs).length / 2 - 1) 0 +
      (npSort xs).getD ((npSort xs).length / 2) 0) / 2

/-- `np.quantile(xs, q)` with the default linear interpolation: with `s` the sorted
array and `p = q*(n-1)`, the result is `s[⌊p⌋] + (p - ⌊p⌋) * (s[⌊p⌋+1] - s[⌊p⌋])`. -/
def npQuantile (xs : List ℚ) (q : ℚ) : ℚ :=
  let s := npSort xs
  let n := s.length
  let p := q * ((n : ℚ) - 1)
  let lo := (⌊p⌋).toNat
  let a := s.getD lo 0
  let b := s.getD (lo + 1) a
  a + (p - (⌊p⌋ : ℚ)) * (b - a)

/-! ### Grasp candidates and the per-grasp scoring loop (lines 783-798 / 355-370) -/

/-- A grasp candidate as far as scoring is concerned: its index in the grasp group and
the detector score stored in its `grasp_array` (`grasp.score`).  The pose/extent data
only enters through the bounding-box membership predicates, which model
`get_bbox_from_grasp` + `get_point_indices_within_bounding_box`. -/
structure GraspC where
  id : ℕ
  score : ℚ
deriving DecidableEq

/-- The scoring loop of `gen_grasp_button.on_click` (lines 783-798) and `main`
(lines 355-370).  `inLerfBox g p` models membership of LERF point `p` in grasp `g`'s
oriented bounding box, `inDinoBox` the same for the DINO point cloud; `lerfCloud`
pairs each LERF point with its relevancy value `lerf_relevancy[p]`.  Per grasp it
computes `score = 0.0` if no LERF points lie in the box, else the median of their
relevancy values; and `score1 = grasp.score`, overwritten with `0.0` if no DINO
points lie in the box.  Returns `(lerf_scores, geom_scores)`. -/
def scoreLoop (inLerfBox inDinoBox : GraspC → ℕ → Bool)
    (lerfCloud : List (ℕ × ℚ)) (dinoPts : List ℕ) :
    List GraspC → List ℚ × List ℚ
  | [] => ([], [])
  | g :: rest =>
    let pts := lerfCloud.filter (fun pr => inLerfBox g pr.1)
    let pts1 := dinoPts.filter (fun p => inDinoBox g p)
    let score := if pts.length = 0 then 0 else npMedian (pts.map Prod.snd)
    let score1 := if pts1.length = 0 then 0 else g.score
    let tail := scoreLoop inLerfBox inDinoBox lerfCloud dinoPts rest
    (score :: tail.1, score1 :: tail.2)

/-- Line 802 (`lerf_scores /= lerf_relevancy.max()`): the semantic-score array is
divided elementwise by the maximum of the per-point relevancy array. -/
def normalizeLerf (lerfScores relevancy : List ℚ) : List ℚ :=
  lerfScores.map (fun s => s / npMax relevancy)

/-- Lines 814-822: fusion of semantic and geometric scores.  If the semantic-score
array is empty the geometric scores are used; if the weight is exactly 1 the semantic
scores are used directly; otherwise `w*sem + (1-w)*geom` elementwise. -/
def fuseScores (lerfScores geomScores : List ℚ) (lerfWeight : ℚ) : List ℚ :=
  if lerfScores.length = 0 then geomScores
  else if lerfWeight = 1 then lerfScores
  else List.zipWith (fun s g => lerfWeight * s + (1 - lerfWeight) * g) lerfScores geomScores

/-- Descending order on grasps by their stored detector score; this is the order used
by `GraspGroup.sort_by_score()`. -/
def scoreDescRel (a b : GraspC) : Prop := b.score ≤ a.score

instance : DecidableRel scoreDescRel :=
  fun a b => inferInstanceAs (Decidable (b.score ≤ a.score))

instance : IsTotal GraspC scoreDescRel := ⟨fun a b => le_total b.score a.score⟩

instance : IsTrans GraspC scoreDescRel := ⟨fun _ _ _ h1 h2 => le_trans h2 h1⟩

/-- Lines 827-834: thresholded selection.  `scores_threshold = np.quantile(scores, q)`;
the grasps whose fused score strictly exceeds the threshold are kept (paired with
their score by position) and the kept set is returned via `sort_by_score()`, i.e.
sorted descending by each grasp's stored detector score. -/
def selectGrasps (grasps : List GraspC) (scores : List ℚ) (q : ℚ) : List GraspC :=
  let thr := npQuantile scores q
  let sel := ((grasps.zip scores).filter (fun p => thr < p.2)).map Prod.fst
  List.insertionSort scoreDescRel sel

/-- Line 830: the indices of the selected grasps
(`[ind for (ind, grasp) in enumerate(grasps) if scores[ind] > scores_threshold]`). -/
def selectedInds (n : ℕ) (scores : List ℚ) (q : ℚ) : List ℕ :=
  (List.range n).filter (fun i => npQuantile scores q < scores.getD i 0)

/-- Lines 846-847: `scores -= scores[inds_selected].min()` followed by
`scores /= scores[inds_selected].max()` (the max is taken after the shift).  When the
divisor is zero numpy produces non-finite floats (`0/0 = nan` for every selected
entry); that outcome is modelled as `none`. -/
def rescaleScores (scores : List ℚ) (inds : List ℕ) : Option (List ℚ) :=
  let m := npMin (inds.map (fun i => scores.getD i 0))
  let shifted := scores.map (fun s => s - m)
  let d := npMax (inds.map (fun i => shifted.getD i 0))
  if d = 0 then none else some (shifted.map (fun s => s / d))

/-! ### Trajectory synthesis (`gen_traj_button.on_click`, lines 871-1191) -/

/-- A joint configuration (one row of the planner's trajectory array). -/
abbrev Config := List ℚ

/-- A joint trajectory (`traj`, a `(#waypoints, 6)` array). -/
abbrev Traj := List Config

/-- A 3-d translation vector. -/
structure Vec3 where
  x : ℚ
  y : ℚ
  z : ℚ
deriving DecidableEq

/-- One entry of `succ_traj_list`: the approach trajectory together with the pose the
planner reached (`(traj, fin_pose)`, line 979). -/
structure PlanResult where
  traj : Traj
  endPos : Vec3
deriving DecidableEq

/-- One rotation trial of the inner loop (lines 895-984), after the target pose has
been composed: `upZ` is `grasp_pose.matrix[:, 2][2]`, the world z-component of the
pose's approach axis; the remaining fields are the motion-planner collaborator's
answers for this trial — `create_traj_from_grasp` returns
`(approachTraj, approachSucc, approachPos)` and `create_traj_lift_up` returns success
flag `liftSucc`. -/
structure Trial where
  upZ : ℚ
  approachTraj : Traj
  approachPos : Vec3
  approachSucc : Bool
  liftSucc : Bool
deriving DecidableEq

/-- Observable events of one rotation trial, recording which rotation index did what:
`skip` is the `continue` at line 948 (upward approach axis, before any planner call),
`approachCall`/`liftCall` are invocations of the motion planner, `approachFail` /
`liftFail` are planner-reported failures, and `record` is an append to
`succ_traj_list`. -/
inductive PlanEvent where
  | skip : ℕ → PlanEvent
  | approachCall : ℕ → PlanEvent
  | approachFail : ℕ → PlanEvent
  | liftCall : ℕ → PlanEvent
  | liftFail : ℕ → PlanEvent
  | record : ℕ → PlanEvent
deriving DecidableEq

/-- The rotation index an event belongs to. -/
def PlanEvent.idx : PlanEvent → ℕ
  | skip i => i
  | approachCall i => i
  | approachFail i => i
  | liftCall i => i
  | liftFail i => i
  | record i => i

/-- The inner rotation loop (`for i in range(num_rotations_test)`, lines 895-984) for
the grasp / pick-and-place branch, started at rotation index `i`.  A trial with an
upward approach axis (`grasp_pose.matrix[:, 2][2] > 0`) is skipped with no planner
call; otherwise the approach planner is called, on its failure the loop continues; on
approach success the lift planner is called; when both succeed `(traj, fin_pose)` is
recorded and, if this was rotation index 0, the loop breaks (lines 976-982).
Returns `succ_traj_list` together with the trace of events. -/
def rotationLoop : ℕ → List Trial → List PlanResult × List PlanEvent
  | _, [] => ([], [])
  | i, t :: rest =>
    if 0 < t.upZ then
      let r := rotationLoop (i + 1) rest
      (r.1, .skip i :: r.2)
    else if t.approachSucc = false then
      let r := rotationLoop (i + 1) rest
      (r.1, .approachCall i :: .approachFail i :: r.2)
    else if t.liftSucc = false then
      let r := rotationLoop (i + 1) rest
      (r.1, .approachCall i :: .liftCall i :: .liftFail i :: r.2)
    else if i = 0 then
      ([⟨t.approachTraj, t.approachPos⟩], [.approachCall i, .liftCall i, .record i])
    else
      let r := rotationLoop (i + 1) rest
      (⟨t.approachTraj, t.approachPos⟩ :: r.1,
        .approachCall i :: .liftCall i :: .record i :: r.2)

/-- The outer candidate loop (`for traj_grasp_ind in traj_grasp_ind_list`, lines
883-1064), started at candidate position `c` of the ranked list.  Each candidate runs
its rotation loop; if that recorded no success the next candidate is tried (line
1060), otherwise the loop breaks (line 1064).  Returns the breaking candidate's
position and its `succ_traj_list` (or `none` when every candidate failed), together
with the trace of events tagged by candidate position. -/
def candidateLoop : ℕ → List (List Trial) → Option (ℕ × List PlanResult) × List (ℕ × PlanEvent)
  | _, [] => (none, [])
  | c, trials :: rest =>
    let r := rotationLoop 0 trials
    let tagged := r.2.map (fun e => (c, e))
    if r.1.isEmpty then
      let r2 := candidateLoop (c + 1) rest
      (r2.1, tagged ++ r2.2)
    else
      (some (c, r.1), tagged)

/-- Squared Euclidean distance between two joint configurations.  The script compares
`np.linalg.norm` values only through strict inequalities; since `Real.sqrt` is
strictly monotone on squares, comparing squared norms is order-equivalent and keeps
the embedding inside ℚ. -/
def sqNormDiff (a b : Config) : ℚ := (List.zipWith (fun x y => (x - y) ^ 2) a b).sum

/-- `np.linalg.norm(curr_traj[0, :] - curr_traj[-1, :])` (line 1076), squared: the
joint-space path length criterion between first and last configuration. -/
def pathSq (t : Traj) : ℚ := sqNormDiff (t.headD []) (t.getLastD [])

/-- `np.linalg.norm(end_pose.translation - grasp_pose.translation)` (line 1078),
squared: proximity of a result's final pose to the target pose. -/
def proxSq (target p : Vec3) : ℚ :=
  (p.x - target.x) ^ 2 + (p.y - target.y) ^ 2 + (p.z - target.z) ^ 2

/-- The best-result selection fold (lines 1073-1081).  `minD` is `min_dist`
(`none` = `np.inf`), `best` is `(best_traj, best_end_pose)` (`none, none` initially).
A result is adopted when `dist < min_dist` AND (no best exists yet OR it strictly
improves proximity to `target`). -/
def bestGo (target : Vec3) : List PlanResult → Option ℚ → Option PlanResult → Option PlanResult
  | [], _, best => best
  | r :: rest, minD, best =>
    let d := pathSq r.traj
    let distOk : Bool :=
      match minD with
      | none => true
      | some m => decide (d < m)
    let proxOk : Bool :=
      match best with
      | none => true
      | some b => decide (proxSq target r.endPos < proxSq target b.endPos)
    if distOk && proxOk then bestGo target rest (some d) (some r)
    else bestGo target rest minD best

/-- Selection of the best recorded result from `succ_traj_list` (lines 1073-1081). -/
def bestSelect (target : Vec3) (rs : List PlanResult) : Option PlanResult :=
  bestGo target rs none none

/-- The primitive chosen in the GUI dropdown (lines 707-714). -/
inductive Primitive where
  | grasp
  | pickPlace
  | twist
  | pour
deriving DecidableEq

/-- What one post-approach planner call returns: a trajectory and a success flag
(`traj_up, succ_up = ...`). -/
structure StageResult where
  traj : Traj
  succ : Bool
deriving DecidableEq

/-- The stage-composition tail of `gen_traj_button.on_click` (lines 1084-1155), run
after a best approach trajectory has been selected.  For grasp / pick-and-place /
pour the lift planner's flag is folded into `succ`; for twist the twist planner's
flag is.  Line 1107 then aborts (`traj = None`) only when the primitive is `grasp`
and `succ` is false; every other branch concatenates the lift (or twist) trajectory,
and for pick-and-place / pour also the place (and pour / un-pour) trajectories,
without consulting those stages' success flags. -/
def extendStages (p : Primitive) (approach : Traj)
    (liftR twistR placeR pourR unpourR : StageResult) : Option Traj :=
  let up :=
    match p with
    | .grasp => liftR
    | .pickPlace => liftR
    | .pour => liftR
    | .twist => twistR
  if p = .grasp ∧ up.succ = false then none
  else
    let t1 := approach ++ up.traj
    match p with
    | .pickPlace => some (t1 ++ placeR.traj)
    | .pour => some (t1 ++ placeR.traj ++ pourR.traj ++ unpourR.traj)
    | _ => some t1

/-- The trajectory slider callback (lines 1186-1191):
`curr_joint = traj[int(gen_traj_slider.value * (len(traj) - 1)), :]`.  Python's
`int()` truncates toward zero, which for the slider's range `t ∈ [0, 1]` is the
floor. -/
def sampleTraj (traj : Traj) (t : ℚ) : Config :=
  traj.getD (⌊t * ((traj.length : ℚ) - 1)⌋).toNat []

/-! ### Helper lemmas about the numpy-style helpers -/

lemma le_foldl_max (t : List ℚ) (a : ℚ) : a ≤ t.foldl max a := by
  induction t generalizing a with
  | nil => exact le_refl a
  | cons b t ih => exact le_trans (le_max_left a b) (ih (max a b))

lemma mem_le_foldl_max (t : List ℚ) (a x : ℚ) (hx : x ∈ t) : x ≤ t.foldl max a := by
  induction t generalizing a with
  | nil => cases hx
  | cons b t ih =>
    rcases List.mem_cons.mp hx with h | h
    · subst h
      exact le_trans (le_max_right a x) (le_foldl_max t (max a x))
    · exact ih (max a b) h

lemma npMax_is_ub {xs : List ℚ} {x : ℚ} (hx : x ∈ xs) : x ≤ npMax xs := by
  cases xs with
  | nil => cases hx
  | cons a t =>
    rcases List.mem_cons.mp hx with h | h
    · subst h
      exact le_foldl_max t x
    · exact mem_le_foldl_max t a x h

lemma npMax_nonneg {xs : List ℚ} (h : ∀ x ∈ xs, 0 ≤ x) : 0 ≤ npMax xs := by
  cases xs with
  | nil => simp [npMax]
  | cons a t =>
    exact le_trans (h a (List.mem_cons_self a t)) (npMax_is_ub (List.mem_cons_self a t))

lemma npSort_length (xs : List ℚ) : (npSort xs).length = xs.length :=
  List.length_insertionSort _ xs

lemma npSort_getD_mem (xs : List ℚ) (k : ℕ) (hk : k < xs.length) :
    (npSort xs).getD k 0 ∈ xs := by
  have hk2 : k < (npSort xs).length := by rw [npSort_length]; exact hk
  rw [List.getD_eq_getElem _ _ hk2]
  exact (List.mem_insertionSort _).mp (List.getElem_mem hk2)

lemma npMedian_bounds {xs : List ℚ} {a b : ℚ} (hne : xs ≠ [])
    (h : ∀ x ∈ xs, a ≤ x ∧ x ≤ b) : a ≤ npMedian xs ∧ npMedian xs ≤ b := by
  have hlen : 0 < xs.length := List.length_pos.mpr hne
  unfold npMedian
  rw [npSort_length]
  by_cases hodd : xs.length % 2 = 1
  · rw [if_pos hodd]
    exact h _ (npSort_getD_mem xs _ (Nat.div_lt_self hlen (by norm_num)))
  · rw [if_neg hodd]
    have hk1 : xs.length / 2 - 1 < xs.length := by omega
    have hk2 : xs.length / 2 < xs.length := Nat.div_lt_self hlen (by norm_num)
    have m1 := h _ (npSort_getD_mem xs _ hk1)
    have m2 := h _ (npSort_getD_mem xs _ hk2)
    constructor
    · linarith [m1.1, m2.1]
    · linarith [m1.2, m2.2]

lemma zipWith_get?_some (f : ℚ → ℚ → ℚ) :
    ∀ (l g : List ℚ) (i : ℕ) (a b : ℚ), l.get? i = some a → g.get? i = some b →
      (List.zipWith f l g).get? i = some (f a b) := by
  intro l
  induction l with
  | nil => intro g i a b h _; simp at h
  | cons x l ih =>
    intro g i a b hl hg
    cases g with
    | nil => simp at hg
    | cons y g =>
      cases i with
      | zero =>
        simp only [List.get?_cons_zero, Option.some.injEq] at hl hg
        subst hl
        subst hg
        simp
      | succ n =>
        simp only [List.get?_cons_succ] at hl hg
        simpa using ih g n a b hl hg

lemma zipWith_snd_eq : ∀ (l g : List ℚ), l.length = g.length →
    List.zipWith (fun _ b => b) l g = g := by
  intro l
  induction l with
  | nil =>
    intro g h
    cases g with
    | nil => rfl
    | cons y g => simp at h
  | cons x l ih =>
    intro g h
    cases g with
    | nil => simp at h
    | cons y g =>
      simp only [List.length_cons, Nat.add_right_cancel_iff] at h
      simpa using ih g h

lemma scoreLoop_fst_bounds (inL inD : GraspC → ℕ → Bool)
    (cloud : List (ℕ × ℚ)) (dino : List ℕ)
    (hnn : ∀ pr ∈ cloud, 0 ≤ pr.2) :
    ∀ (grasps : List GraspC) (s : ℚ), s ∈ (scoreLoop inL inD cloud dino grasps).1 →
      0 ≤ s ∧ s ≤ npMax (cloud.map Prod.snd) := by
  have hnn2 : ∀ v ∈ cloud.map Prod.snd, 0 ≤ v := by
    intro v hv
    rcases List.mem_map.mp hv with ⟨pr, hpr, rfl⟩
    exact hnn pr hpr
  intro grasps
  induction grasps with
  | nil => intro s hs; simp [scoreLoop] at hs
  | cons g rest ih =>
    intro s hs
    simp only [scoreLoop] at hs
    rcases List.mem_cons.mp hs with h | h
    · subst h
      by_cases hempty : (cloud.filter (fun pr => inL g pr.1)).length = 0
      · rw [if_pos hempty]
        exact ⟨le_refl 0, npMax_nonneg hnn2⟩
      · rw [if_neg hempty]
        apply npMedian_bounds
        · intro hcon
          apply hempty
          rw [← List.length_map _ Prod.snd, hcon]
          rfl
        · intro v hv
          rcases List.mem_map.mp hv with ⟨pr, hpr, rfl⟩
          have hc : pr ∈ cloud := (List.mem_filter.mp hpr).1
          exact ⟨hnn pr hc, npMax_is_ub (List.mem_map.mpr ⟨pr, hc, rfl⟩)⟩
    · exact ih s h

/-! ### Claim theorems: score fusion -/

/-- C1 (code evaluated at the failing input): with fused scores `[9/10, 1/2]` and
quantile threshold `1/2`, exactly one candidate is selected, so the selected scores
have equal min and max.  The rescale step (lines 846-847) performs no degenerate-case
check: it divides by `scores[inds_selected].max() = 0`, which in numpy yields
non-finite values (`0/0 = nan` for the selected score) — modelled as `none` — instead
of the constant `1.0` the spec requires. -/
theorem rescale_divides_by_zero_on_degenerate_selection :
    selectedInds 2 [9/10, 1/2] (1/2) = [0] ∧
    rescaleScores [9/10, 1/2] [0] = none := by
  norm_num [selectedInds, npQuantile, npSort, List.insertionSort, List.orderedInsert,
    rescaleScores, npMin, npMax, List.range_succ, List.filter_append, List.filter_cons,
    List.filter_nil]

/-- C2 (counterexample): the returned selection is NOT ordered descending by fused
score.  With fused scores `[9/10, 8/10, 1/10, 0]` and quantile `1/2` (threshold
`9/20`) the candidates at positions 0 and 1 are selected, but `sort_by_score()`
orders them by their stored detector scores (`1/10` vs `9/10`), so the candidate with
the SMALLER fused score (`8/10 < 9/10`) comes first. -/
theorem select_not_sorted_by_fused_score :
    selectGrasps [⟨0, 1/10⟩, ⟨1, 9/10⟩, ⟨2, 2/10⟩, ⟨3, 3/10⟩]
        [9/10, 8/10, 1/10, 0] (1/2) = [⟨1, 9/10⟩, ⟨0, 1/10⟩] ∧
    (8 : ℚ)/10 < 9/10 := by
  norm_num [selectGrasps, npQuantile, npSort, List.insertionSort, List.orderedInsert,
    scoreDescRel, List.zip, List.zipWith, List.filter]

/-- C2 (amended): `select` keeps exactly the candidates whose fused score strictly
exceeds `np.quantile(fused_scores, q)` (membership is exact, both directions), and
the returned list is sorted descending by each candidate's stored detector
(geometric) score — the order produced by `sort_by_score()` — not by fused score. -/
theorem select_membership_exact_and_detector_ordered
    (grasps : List GraspC) (scores : List ℚ) (q : ℚ) :
    (∀ g ∈ selectGrasps grasps scores q,
      ∃ s, (g, s) ∈ grasps.zip scores ∧ npQuantile scores q < s) ∧
    (∀ g s, (g, s) ∈ grasps.zip scores → npQuantile scores q < s →
      g ∈ selectGrasps grasps scores q) ∧
    List.Sorted scoreDescRel (selectGrasps grasps scores q) := by
  refine ⟨?_, ?_, ?_⟩
  · intro g hg
    simp only [selectGrasps, List.mem_insertionSort, List.mem_map, List.mem_filter] at hg
    rcases hg with ⟨⟨g2, s⟩, ⟨hmem, hlt⟩, rfl⟩
    exact ⟨s, hmem, by simpa using hlt⟩
  · intro g s hmem hlt
    simp only [selectGrasps, List.mem_insertionSort, List.mem_map, List.mem_filter]
    exact ⟨(g, s), ⟨hmem, by simpa using hlt⟩, rfl⟩
  · exact List.sorted_insertionSort scoreDescRel _

/-- C2 witness: the amended membership direction applied at a concrete input. -/
theorem select_membership_witness :
    (⟨0, 1/10⟩ : GraspC) ∈ selectGrasps [⟨0, 1/10⟩, ⟨1, 9/10⟩] [9/10, 0] (1/2) :=
  (select_membership_exact_and_detector_ordered [⟨0, 1/10⟩, ⟨1, 9/10⟩] [9/10, 0] (1/2)).2.1
    ⟨0, 1/10⟩ (9/10) (by norm_num [List.zip, List.zipWith])
    (by norm_num [npQuantile, npSort, List.insertionSort, List.orderedInsert])

/-- C5 (counterexample): the semantic-score array is NOT normalized by its own
maximum.  One LERF point with relevancy 2 lies outside every box and one with
relevancy 1 lies inside the single candidate's box: the raw semantic-score array is
`[1]` (nonzero), yet line 802 divides by `lerf_relevancy.max() = 2`, giving `[1/2]` —
no candidate attains 1. -/
theorem semantic_scores_not_normalized_by_own_max :
    (scoreLoop (fun _ p => decide (p = 1)) (fun _ _ => true)
        [(0, 2), (1, 1)] [0] [⟨0, 1/2⟩]).1 = [1] ∧
    normalizeLerf (scoreLoop (fun _ p => decide (p = 1)) (fun _ _ => true)
        [(0, 2), (1, 1)] [0] [⟨0, 1/2⟩]).1
        (([((0 : ℕ), (2 : ℚ)), (1, 1)]).map Prod.snd) = [1/2] ∧
    ((1 : ℚ)/2 ≠ 1) := by
  norm_num [scoreLoop, normalizeLerf, npMedian, npSort, npMax,
    List.insertionSort, List.orderedInsert, List.filter]

/-- C5 (amended): the semantic-score array is normalized by the maximum of the
per-point relevancy array (not the score array's own maximum).  Because every raw
semantic score is either 0 or a median of a subset of the relevancy values, the
normalized scores still lie in `[0, 1]` whenever the relevancy values are nonnegative
with positive maximum — but no candidate need attain 1. -/
theorem normalized_semantic_scores_in_unit_interval
    (inL inD : GraspC → ℕ → Bool) (cloud : List (ℕ × ℚ)) (dino : List ℕ)
    (grasps : List GraspC)
    (hnn : ∀ pr ∈ cloud, 0 ≤ pr.2)
    (hpos : 0 < npMax (cloud.map Prod.snd)) :
    ∀ s ∈ normalizeLerf (scoreLoop inL inD cloud dino grasps).1 (cloud.map Prod.snd),
      0 ≤ s ∧ s ≤ 1 := by
  intro s hs
  rcases List.mem_map.mp hs with ⟨raw, hraw, rfl⟩
  have hb := scoreLoop_fst_bounds inL inD cloud dino hnn grasps raw hraw
  exact ⟨div_nonneg hb.1 (le_of_lt hpos), (div_le_one hpos).mpr hb.2⟩

/-- C5 witness: the amended bound applied at a concrete input. -/
theorem normalized_semantic_scores_witness :
    0 ≤ (1 : ℚ)/2 ∧ (1 : ℚ)/2 ≤ 1 :=
  normalized_semantic_scores_in_unit_interval (fun _ p => decide (p = 1)) (fun _ _ => true)
    [(0, 2), (1, 1)] [0] [⟨0, 1/2⟩] (by norm_num) (by norm_num [npMax]) (1/2)
    (by norm_num [normalizeLerf, scoreLoop, npMedian, npSort, npMax,
      List.insertionSort, List.orderedInsert, List.filter])

/-- C9: the fused score is the affine combination `w*semantic + (1-w)*geometric`
elementwise; with `w = 1` the fused array IS the semantic array and with `w = 0` it
IS the geometric array, so the fused ranking reproduces the corresponding ordering
exactly. -/
theorem fused_score_affine_combination (l g : List ℚ) (w : ℚ)
    (hlen : l.length = g.length) :
    (∀ i a b, l.get? i = some a → g.get? i = some b →
      (fuseScores l g w).get? i = some (w * a + (1 - w) * b)) ∧
    fuseScores l g 1 = l ∧ fuseScores l g 0 = g := by
  refine ⟨?_, ?_, ?_⟩
  · intro i a b ha hb
    by_cases h0 : l.length = 0
    · rw [List.length_eq_zero] at h0
      subst h0
      simp at ha
    · by_cases h1 : w = 1
      · subst h1
        have hval : (1 : ℚ) * a + (1 - 1) * b = a := by ring
        rw [hval]
        unfold fuseScores
        rw [if_neg h0, if_pos rfl]
        exact ha
      · unfold fuseScores
        rw [if_neg h0, if_neg h1]
        exact zipWith_get?_some _ l g i a b ha hb
  · by_cases h0 : l.length = 0
    · rw [List.length_eq_zero] at h0
      subst h0
      have hg : g = [] := by
        rw [← List.length_eq_zero, ← hlen]
        rfl
      subst hg
      simp [fuseScores]
    · unfold fuseScores
      rw [if_neg h0, if_pos rfl]
  · by_cases h0 : l.length = 0
    · rw [List.length_eq_zero] at h0
      subst h0
      simp [fuseScores]
    · unfold fuseScores
      rw [if_neg h0, if_neg (by norm_num : ¬((0:ℚ) = 1))]
      have hfun : (fun s g2 => (0:ℚ) * s + (1 - 0) * g2) = fun _ g2 => g2 := by
        funext s g2
        ring
      rw [hfun, zipWith_snd_eq l g hlen]

/-- C9 witness: the fused-score formula applied at a concrete input. -/
theorem fused_score_affine_witness :
    (fuseScores [1/2] [1] (3/4)).get? 0 = some ((3/4) * (1/2) + (1 - 3/4) * 1) :=
  (fused_score_affine_combination [1/2] [1] (3/4) rfl).1 0 (1/2) 1 rfl rfl

/-- C10: in the scoring loop, the geometric score recorded for a grasp is `0.0`
whenever no DINO points lie inside the grasp's oriented bounding box, and the
detector's stored score `grasp.score` otherwise — regardless of how large the
detector score was. -/
theorem geom_score_zeroed_without_dino_points
    (inL inD : GraspC → ℕ → Bool) (cloud : List (ℕ × ℚ)) (dino : List ℕ) :
    ∀ (grasps : List GraspC) (i : ℕ) (g : GraspC), grasps.get? i = some g →
      (scoreLoop inL inD cloud dino grasps).2.get? i =
        some (if (dino.filter (inD g)).length = 0 then 0 else g.score) := by
  intro grasps
  induction grasps with
  | nil => intro i g hg; simp at hg
  | cons g0 rest ih =>
    intro i g hg
    cases i with
    | zero =>
      simp only [List.get?_cons_zero, Option.some.injEq] at hg
      subst hg
      simp [scoreLoop]
    | succ n =>
      simp only [List.get?_cons_succ] at hg
      simp only [scoreLoop, List.get?_cons_succ]
      exact ih n g hg

/-- C10 witness: a grasp with positive detector score but no DINO points in its box
receives geometric score 0. -/
theorem geom_score_zeroed_witness :
    (scoreLoop (fun _ _ => true) (fun _ _ => false) [] [(0 : ℕ)] [⟨0, 1/2⟩]).2.get? 0
      = some 0 := by
  have h := geom_score_zeroed_without_dino_points (fun _ _ => true) (fun _ _ => false)
    [] [(0 : ℕ)] [⟨0, 1/2⟩] 0 ⟨0, 1/2⟩ rfl
  simpa using h

/-! ### Claim theorems: trajectory synthesis -/

/-- C3 (counterexample): strictly smaller path length alone does NOT make a recorded
result replace the current best.  The second recorded result has path length 1 < 4
but worse proximity to the target (25 > 1), and the fold of lines 1073-1081 keeps the
first result: proximity is a required conjunct of adoption, not a tie-break at equal
path length. -/
theorem best_result_not_path_length_primary :
    pathSq [[0], [1]] < pathSq [[0], [2]] ∧
    bestSelect ⟨0, 0, 0⟩ [⟨[[0], [2]], ⟨1, 0, 0⟩⟩, ⟨[[0], [1]], ⟨5, 0, 0⟩⟩]
      = some ⟨[[0], [2]], ⟨1, 0, 0⟩⟩ := by
  norm_num [bestSelect, bestGo, pathSq, sqNormDiff, proxSq]

/-- C3 (amended): the first recorded result is always adopted; afterwards a recorded
result replaces the current best only if it has BOTH strictly smaller path length and
strictly better end-effector proximity to the target pose.  For two recorded results
this is an exact characterization: the second is returned instead of the first iff it
improves both criteria. -/
theorem best_result_pair_adoption_iff (target : Vec3) (r1 r2 : PlanResult)
    (hne : r1 ≠ r2) :
    bestSelect target [r1, r2] = some r2 ↔
      (pathSq r2.traj < pathSq r1.traj ∧
        proxSq target r2.endPos < proxSq target r1.endPos) := by
  have step : bestSelect target [r1, r2] =
      if pathSq r2.traj < pathSq r1.traj ∧
          proxSq target r2.endPos < proxSq target r1.endPos
      then some r2 else some r1 := by
    simp only [bestSelect, bestGo]
    by_cases h1 : pathSq r2.traj < pathSq r1.traj
    · by_cases h2 : proxSq target r2.endPos < proxSq target r1.endPos
      · simp [h1, h2]
      · simp [h1, h2]
    · simp [h1]
  rw [step]
  by_cases h : pathSq r2.traj < pathSq r1.traj ∧
      proxSq target r2.endPos < proxSq target r1.endPos
  · simp [h]
  · rw [if_neg h]
    simp only [Option.some.injEq]
    constructor
    · intro h12
      exact absurd h12 hne
    · intro hcon
      exact absurd hcon h

/-- C3 witness: the amended adoption rule applied at a concrete input where the
second result improves both path length and proximity. -/
theorem best_result_pair_witness :
    bestSelect ⟨0, 0, 0⟩ [⟨[[0], [2]], ⟨5, 0, 0⟩⟩, ⟨[[0], [1]], ⟨1, 0, 0⟩⟩]
      = some ⟨[[0], [1]], ⟨1, 0, 0⟩⟩ :=
  (best_result_pair_adoption_iff ⟨0, 0, 0⟩ ⟨[[0], [2]], ⟨5, 0, 0⟩⟩ ⟨[[0], [1]], ⟨1, 0, 0⟩⟩
    (by simp)).mpr (by norm_num [pathSq, sqNormDiff, proxSq])

/-- C4 (code evaluated at the failing input): for the pick-and-place primitive with a
successful approach and lift, a place-stage planner FAILURE (`succ = false`) is
ignored — the failed stage's trajectory is concatenated and a composed trajectory is
returned, not `None`.  Only the grasp primitive's lift failure (second conjunct)
aborts with no trajectory as the claim describes. -/
theorem stage_failure_still_returns_trajectory :
    extendStages .pickPlace [[0]] ⟨[[1]], true⟩ ⟨[], true⟩ ⟨[[2]], false⟩ ⟨[], true⟩ ⟨[], true⟩
      = some [[0], [1], [2]] ∧
    extendStages .grasp [[0]] ⟨[[1]], false⟩ ⟨[], true⟩ ⟨[], true⟩ ⟨[], true⟩ ⟨[], true⟩
      = none := by
  norm_num [extendStages]

/-- C8 (counterexample): the slider callback truncates (`int(...)`) rather than
rounds.  For a 2-waypoint trajectory at `t = 9/10`, `round(0.9 * 1) = 1` would select
the last configuration, but the code computes `int(0.9) = 0` and returns the first
configuration. -/
theorem sample_truncates_instead_of_rounding :
    sampleTraj [[0], [1]] (9/10) = [0] ∧
    round ((9 : ℚ)/10 * ((2 : ℚ) - 1)) = 1 ∧ ([0] : Config) ≠ [1] := by
  norm_num [sampleTraj, round_eq]

/-- C8 (amended): `sample` returns the configuration at index `⌊t*(L-1)⌋` (truncation
toward zero of `t*(L-1)`, which is the floor for `t ∈ [0,1]`); that index is always
in range for a non-empty trajectory, and the endpoints are exact: `sample(·, 0)` is
the first configuration and `sample(·, 1)` the last. -/
theorem sample_floor_index_and_endpoints (traj : Traj) (t : ℚ) (hne : traj ≠ [])
    (h0 : 0 ≤ t) (h1 : t ≤ 1) :
    (⌊t * ((traj.length : ℚ) - 1)⌋).toNat < traj.length ∧
    sampleTraj traj 0 = traj.getD 0 [] ∧
    sampleTraj traj 1 = traj.getD (traj.length - 1) [] := by
  have hlen : 1 ≤ traj.length := List.length_pos.mpr hne
  have hcast : ((traj.length : ℚ) - 1) = ((traj.length - 1 : ℕ) : ℚ) := by
    push_cast [hlen]
    ring
  refine ⟨?_, ?_, ?_⟩
  · have hnn : (0 : ℚ) ≤ (traj.length : ℚ) - 1 := by
      rw [hcast]
      positivity
    have hle : t * ((traj.length : ℚ) - 1) ≤ ((traj.length : ℚ) - 1) := by
      nlinarith
    have hfl : ⌊t * ((traj.length : ℚ) - 1)⌋ ≤ ((traj.length - 1 : ℕ) : ℤ) := by
      calc ⌊t * ((traj.length : ℚ) - 1)⌋ ≤ ⌊((traj.length : ℚ) - 1)⌋ :=
            Int.floor_le_floor hle
        _ = ((traj.length - 1 : ℕ) : ℤ) := by rw [hcast]; exact Int.floor_natCast _
    omega
  · unfold sampleTraj
    norm_num
  · unfold sampleTraj
    rw [one_mul, hcast, Int.floor_natCast]
    simp

/-- C8 witness: the amended sampling property applied at a concrete trajectory. -/
theorem sample_floor_witness :
    (⌊(1/2 : ℚ) * ((([[5], [7]] : Traj).length : ℚ) - 1)⌋).toNat
        < ([[5], [7]] : Traj).length ∧
    sampleTraj [[5], [7]] 0 = ([[5], [7]] : Traj).getD 0 [] ∧
    sampleTraj [[5], [7]] 1 = ([[5], [7]] : Traj).getD (([[5], [7]] : Traj).length - 1) [] :=
  sample_floor_index_and_endpoints [[5], [7]] (1/2) (by simp) (by norm_num) (by norm_num)

lemma rotationLoop_event_idx_ge :
    ∀ (trials : List Trial) (i : ℕ) (e : PlanEvent),
      e ∈ (rotationLoop i trials).2 → i ≤ e.idx := by
  intro trials
  induction trials with
  | nil =>
    intro i e he
    simp [rotationLoop] at he
  | cons t rest ih =>
    intro i e he
    have step : ∀ x ∈ (rotationLoop (i + 1) rest).2, i ≤ PlanEvent.idx x :=
      fun x hx => le_trans (Nat.le_succ i) (ih (i + 1) x hx)
    simp only [rotationLoop] at he
    by_cases h1 : 0 < t.upZ
    · rw [if_pos h1] at he
      simp only [List.mem_cons] at he
      rcases he with rfl | h
      · simp [PlanEvent.idx]
      · exact step e h
    · rw [if_neg h1] at he
      by_cases h2 : t.approachSucc = false
      · rw [if_pos h2] at he
        simp only [List.mem_cons] at he
        rcases he with rfl | rfl | h
        · simp [PlanEvent.idx]
        · simp [PlanEvent.idx]
        · exact step e h
      · rw [if_neg h2] at he
        by_cases h3 : t.liftSucc = false
        · rw [if_pos h3] at he
          simp only [List.mem_cons] at he
          rcases he with rfl | rfl | rfl | h
          · simp [PlanEvent.idx]
          · simp [PlanEvent.idx]
          · simp [PlanEvent.idx]
          · exact step e h
        · rw [if_neg h3] at he
          by_cases h4 : i = 0
          · rw [if_pos h4] at he
            simp only [List.mem_cons, List.not_mem_nil, or_false] at he
            rcases he with rfl | rfl | rfl
            · simp [PlanEvent.idx]
            · simp [PlanEvent.idx]
            · simp [PlanEvent.idx]
          · rw [if_neg h4] at he
            simp only [List.mem_cons] at he
            rcases he with rfl | rfl | rfl | h
            · simp [PlanEvent.idx]
            · simp [PlanEvent.idx]
            · simp [PlanEvent.idx]
            · exact step e h

lemma rotationLoop_upward_only_skip :
    ∀ (trials : List Trial) (i j : ℕ) (t : Trial),
      trials.get? i = some t → 0 < t.upZ →
      ∀ e ∈ (rotationLoop j trials).2, e.idx = j + i → e = .skip (j + i) := by
  intro trials
  induction trials with
  | nil =>
    intro i j t ht
    simp at ht
  | cons t0 rest ih =>
    intro i j t ht hup e he hidx
    cases i with
    | zero =>
      simp only [List.get?_cons_zero, Option.some.injEq] at ht
      subst ht
      simp only [rotationLoop] at he
      rw [if_pos hup] at he
      simp only [List.mem_cons] at he
      rcases he with rfl | h
      · simp
      · exfalso
        have hge := rotationLoop_event_idx_ge rest (j + 1) e h
        omega
    | succ m =>
      simp only [List.get?_cons_succ] at ht
      have harith : j + (m + 1) = (j + 1) + m := by omega
      have tailcase : ∀ x ∈ (rotationLoop (j + 1) rest).2, x.idx = j + (m + 1) →
          x = .skip (j + (m + 1)) := by
        intro x hx hxidx
        rw [harith]
        exact ih m (j + 1) t ht hup x hx (by omega)
      simp only [rotationLoop] at he
      by_cases h1 : 0 < t0.upZ
      · rw [if_pos h1] at he
        simp only [List.mem_cons] at he
        rcases he with rfl | h
        · exfalso
          simp only [PlanEvent.idx] at hidx
          omega
        · exact tailcase e h hidx
      · rw [if_neg h1] at he
        by_cases h2 : t0.approachSucc = false
        · rw [if_pos h2] at he
          simp only [List.mem_cons] at he
          rcases he with rfl | rfl | h
          · exfalso
            simp only [PlanEvent.idx] at hidx
            omega
          · exfalso
            simp only [PlanEvent.idx] at hidx
            omega
          · exact tailcase e h hidx
        · rw [if_neg h2] at he
          by_cases h3 : t0.liftSucc = false
          · rw [if_pos h3] at he
            simp only [List.mem_cons] at he
            rcases he with rfl | rfl | rfl | h
            · exfalso
              simp only [PlanEvent.idx] at hidx
              omega
            · exfalso
              simp only [PlanEvent.idx] at hidx
              omega
            · exfalso
              simp only [PlanEvent.idx] at hidx
              omega
            · exact tailcase e h hidx
          · rw [if_neg h3] at he
            by_cases h4 : j = 0
            · rw [if_pos h4] at he
              simp only [List.mem_cons, List.not_mem_nil, or_false] at he
              rcases he with rfl | rfl | rfl
              · exfalso
                simp only [PlanEvent.idx] at hidx
                omega
              · exfalso
                simp only [PlanEvent.idx] at hidx
                omega
              · exfalso
                simp only [PlanEvent.idx] at hidx
                omega
            · rw [if_neg h4] at he
              simp only [List.mem_cons] at he
              rcases he with rfl | rfl | rfl | h
              · exfalso
                simp only [PlanEvent.idx] at hidx
                omega
              · exfalso
                simp only [PlanEvent.idx] at hidx
                omega
              · exfalso
                simp only [PlanEvent.idx] at hidx
                omega
              · exact tailcase e h hidx

/-- C7: a rotation trial whose composed pose has an upward approach axis
(`grasp_pose.matrix[:, 2][2] > 0`) is rejected before any planner call: the event
trace of the rotation loop contains no approach-planner call, no lift-planner call,
and no planner-failure event at that trial's index (the only event there is the
`skip`). -/
theorem upward_axis_trial_never_calls_planner (trials : List Trial) (i : ℕ) (t : Trial)
    (ht : trials.get? i = some t) (hup : 0 < t.upZ) :
    PlanEvent.approachCall i ∉ (rotationLoop 0 trials).2 ∧
    PlanEvent.approachFail i ∉ (rotationLoop 0 trials).2 ∧
    PlanEvent.liftCall i ∉ (rotationLoop 0 trials).2 ∧
    PlanEvent.liftFail i ∉ (rotationLoop 0 trials).2 := by
  refine ⟨?_, ?_, ?_, ?_⟩ <;>
    · intro hmem
      have h := rotationLoop_upward_only_skip trials i 0 t ht hup _ hmem
        (by simp [PlanEvent.idx])
      simp at h

/-- C7 witness: a single trial with upward approach axis produces only a skip event. -/
theorem upward_axis_trial_witness :
    PlanEvent.approachCall 0 ∉ (rotationLoop 0 [⟨1, [], ⟨0, 0, 0⟩, true, true⟩]).2 ∧
    PlanEvent.approachFail 0 ∉ (rotationLoop 0 [⟨1, [], ⟨0, 0, 0⟩, true, true⟩]).2 ∧
    PlanEvent.liftCall 0 ∉ (rotationLoop 0 [⟨1, [], ⟨0, 0, 0⟩, true, true⟩]).2 ∧
    PlanEvent.liftFail 0 ∉ (rotationLoop 0 [⟨1, [], ⟨0, 0, 0⟩, true, true⟩]).2 :=
  upward_axis_trial_never_calls_planner [⟨1, [], ⟨0, 0, 0⟩, true, true⟩] 0
    ⟨1, [], ⟨0, 0, 0⟩, true, true⟩ rfl (by norm_num)

lemma candidateLoop_first_success_go :
    ∀ (cands : List (List Trial)) (k : ℕ) (tk : List Trial) (c : ℕ),
      cands.get? k = some tk →
      (∀ j tj, j < k → cands.get? j = some tj → (rotationLoop 0 tj).1 = []) →
      (rotationLoop 0 tk).1 ≠ [] →
      (candidateLoop c cands).1 = some (c + k, (rotationLoop 0 tk).1) ∧
      ∀ p ∈ (candidateLoop c cands).2, p.1 ≤ c + k := by
  intro cands
  induction cands with
  | nil =>
    intro k tk c hk
    simp at hk
  | cons t rest ih =>
    intro k tk c hk hfail hsucc
    cases k with
    | zero =>
      simp only [List.get?_cons_zero, Option.some.injEq] at hk
      subst hk
      have hne : (rotationLoop 0 t).1.isEmpty = false := by
        rw [List.isEmpty_eq_false]
        exact hsucc
      simp only [candidateLoop, hne, Bool.false_eq_true, if_false, Nat.add_zero]
      refine ⟨by trivial, ?_⟩
      intro p hp
      rcases List.mem_map.mp hp with ⟨e, _, rfl⟩
      exact le_refl c
    | succ m =>
      simp only [List.get?_cons_succ] at hk
      have hzero : (rotationLoop 0 t).1 = [] :=
        hfail 0 t (Nat.succ_pos m) rfl
      have hemp : (rotationLoop 0 t).1.isEmpty = true := by
        rw [List.isEmpty_iff]
        exact hzero
      have hfail2 : ∀ j tj, j < m → rest.get? j = some tj → (rotationLoop 0 tj).1 = [] := by
        intro j tj hj hget
        exact hfail (j + 1) tj (by omega) (by simpa using hget)
      have hrec := ih m tk (c + 1) hk hfail2 hsucc
      have harith : c + 1 + m = c + (m + 1) := by omega
      simp only [candidateLoop, hemp, if_true]
      constructor
      · rw [← harith]
        exact hrec.1
      · intro p hp
        rcases List.mem_append.mp hp with h | h
        · rcases List.mem_map.mp h with ⟨e, _, rfl⟩
          omega
        · have := hrec.2 p h
          omega

/-- C6: the outer candidate loop stops at the first candidate whose rotation loop
records at least one success: the loop's result comes from that candidate, and every
event in the trace — in particular every planner invocation — belongs to a candidate
position not beyond it.  No later candidate's planner is ever invoked. -/
theorem outer_loop_stops_at_first_success
    (cands : List (List Trial)) (k : ℕ) (tk : List Trial)
    (hk : cands.get? k = some tk)
    (hfail : ∀ j tj, j < k → cands.get? j = some tj → (rotationLoop 0 tj).1 = [])
    (hsucc : (rotationLoop 0 tk).1 ≠ []) :
    (candidateLoop 0 cands).1 = some (k, (rotationLoop 0 tk).1) ∧
    ∀ p ∈ (candidateLoop 0 cands).2, p.1 ≤ k := by
  have h := candidateLoop_first_success_go cands k tk 0 hk hfail hsucc
  simpa using h

/-- C6 witness: candidate 0 fails its approach, candidate 1 succeeds; the loop
returns candidate 1's recorded result. -/
theorem outer_loop_stops_witness :
    (candidateLoop 0 [[⟨0, [], ⟨0, 0, 0⟩, false, true⟩],
        [⟨0, [[1]], ⟨0, 0, 0⟩, true, true⟩]]).1
      = some (1, [⟨[[1]], ⟨0, 0, 0⟩⟩]) := by
  have h := outer_loop_stops_at_first_success
    [[⟨0, [], ⟨0, 0, 0⟩, false, true⟩], [⟨0, [[1]], ⟨0, 0, 0⟩, true, true⟩]]
    1 [⟨0, [[1]], ⟨0, 0, 0⟩, true, true⟩] rfl
    (by
      intro j tj hj hget
      obtain rfl : j = 0 := by omega
      simp only [List.get?_cons_zero, Option.some.injEq] at hget
      subst hget
      norm_num [rotationLoop])
    (by norm_num [rotationLoop])
  rw [h.1]
  norm_num [rotationLoop]

end GenGrasp
